import Mathlib

/-!
Verification of the SubQG image-transformer core: the pixel transformer
(`processImageWithSubQG`), the knot-map resampler (`resizeKnotMap`), the
field simulator (`SubQGSimulator.runSimulation`) and the statistical
projection (`analyzeRiemannProjection`), embedded from the TypeScript
sources.

Conventions of the embedding:
* JavaScript numbers are embedded as `ℚ` where the code only performs
  field operations and comparisons (the whole pixel pipeline), and as `ℝ`
  where the code calls `Math.sin`, `Math.cos` or `Math.sqrt` (the field
  simulator and the projection analyzer).
* `Math.random()` draws are threaded as explicit function parameters
  (one value per call site and loop index), so theorems quantify over
  every possible random source.
* The sinusoidal wave field of the pixel transformer
  (`fieldInfluence = (sin(..) + sin(..))/2`, built from `Math.sin`,
  `Math.PI` and two per-call `Math.random()` phase offsets) is threaded
  as an explicit per-pixel parameter `FI row col knotValue`; theorems
  about the transformer hold for every such field, in particular for the
  sine field of the code.
* Pixel buffers are the `ImageData` byte sequences: row-major interleaved
  RGBA, 4 bytes per pixel, `data.length = 4 * width * height`.
-/

open Classical

/-- `clamp(value, min, max)` from `services/mathHelpers.ts`:
`Math.min(Math.max(value, min), max)`. -/
def clamp {α : Type} [LinearOrder α] (value lo hi : α) : α :=
  min (max value lo) hi

/-- JavaScript `Math.round` on a rational: round half-up toward `+∞`,
`⌊x + 1/2⌋`. -/
def jsRound (q : ℚ) : ℤ :=
  Int.floor (q + 1/2)

/-- Final byte quantization of one channel in `processImageWithSubQG`:
`Math.round(clamp(channel * 255, 0, 255))` (the argument here is already
`channel * 255`). -/
def byteOf (q : ℚ) : ℕ :=
  (jsRound (clamp q 0 255)).toNat

/-- Accumulated brightness modifier: `currentBrightnessMod` starts at
`brightnessFactor` and the `forEach` adds `(activation - 0.5) * 0.15`
per category activation. -/
def brightnessMod (brightnessFactor : ℚ) (acts : List ℚ) : ℚ :=
  acts.foldl (fun acc a => acc + (a - 0.5) * 0.15) brightnessFactor

/-- Accumulated contrast modifier: `currentContrastMod` starts at
`contrastFactor` and the `forEach` multiplies by
`1 + (activation - 0.5) * 0.10` per category activation. -/
def contrastMod (contrastFactor : ℚ) (acts : List ℚ) : ℚ :=
  acts.foldl (fun acc a => acc * (1 + (a - 0.5) * 0.10)) contrastFactor

/-- Contrast-then-brightness around the 0.5 midpoint:
`clamp((v - 0.5) * currentContrastMod + 0.5 + currentBrightnessMod, 0, 1)`. -/
def applyBrightnessContrast (cm bm v : ℚ) : ℚ :=
  clamp ((v - 0.5) * cm + 0.5 + bm) 0 1

/-- `fieldColorModulationStrength = 0.15 * (1.0 - harmonyScore)`. -/
def fieldColorModulationStrength (harmonyScore : ℚ) : ℚ :=
  0.15 * (1 - harmonyScore)

/-- `fieldBrightnessVariationStrength = 0.10 * (1.0 - harmonyScore)`. -/
def fieldBrightnessVariationStrength (harmonyScore : ℚ) : ℚ :=
  0.10 * (1 - harmonyScore)

/-- `colorTempShift = (harmonyScore - 0.5) * 0.25`. -/
def colorTempShift (harmonyScore : ℚ) : ℚ :=
  (harmonyScore - 0.5) * 0.25

/-- `saturationFactor = 1.0 + (harmonyScore - 0.5) * 0.25`. -/
def saturationFactor (harmonyScore : ℚ) : ℚ :=
  1 + (harmonyScore - 0.5) * 0.25

/-- `effectiveColorTempShift = colorTempShift * (1 + fieldInfluence *
fieldColorModulationStrength)`. -/
def effectiveColorTempShift (harmonyScore fieldInfluence : ℚ) : ℚ :=
  colorTempShift harmonyScore *
    (1 + fieldInfluence * fieldColorModulationStrength harmonyScore)

/-- `effectiveSaturationFactor = saturationFactor * (1 + fieldInfluence *
fieldColorModulationStrength * 0.5)` — note the extra `* 0.5` in the code
("Saturation modulation less intense"). -/
def effectiveSaturationFactor (harmonyScore fieldInfluence : ℚ) : ℚ :=
  saturationFactor harmonyScore *
    (1 + fieldInfluence * fieldColorModulationStrength harmonyScore * 0.5)

/-- `brightnessFieldVariation = fieldInfluence * fieldBrightnessVariationStrength`. -/
def brightnessFieldVariation (harmonyScore fieldInfluence : ℚ) : ℚ :=
  fieldInfluence * fieldBrightnessVariationStrength harmonyScore

/-- The color-temperature branch of `processImageWithSubQG`: warming
(`effectiveColorTempShift > 0`) raises R by `0.20`, G by `0.10` and lowers
B by `0.15` per unit of shift; the cooling branch moves only R and B
(G is clamped unchanged). -/
def tempShifted (harmonyScore fieldInfluence r g b : ℚ) : ℚ × ℚ × ℚ :=
  let e := effectiveColorTempShift harmonyScore fieldInfluence
  if 0 < e then
    (clamp (r + e * 0.20) 0 1, clamp (g + e * 0.10) 0 1, clamp (b - e * 0.15) 0 1)
  else
    (clamp (r + e * 0.15) 0 1, clamp g 0 1, clamp (b - e * 0.20) 0 1)

/-- The saturation step: scale each channel's deviation from
`luma = 0.299 R + 0.587 G + 0.114 B` by `effectiveSaturationFactor`. -/
def satAdjusted (harmonyScore fieldInfluence r g b : ℚ) : ℚ × ℚ × ℚ :=
  let e := effectiveSaturationFactor harmonyScore fieldInfluence
  let luma := 0.299 * r + 0.587 * g + 0.114 * b
  (clamp (luma + (r - luma) * e) 0 1,
   clamp (luma + (g - luma) * e) 0 1,
   clamp (luma + (b - luma) * e) 0 1)

/-- The full per-pixel R,G,B pipeline of `processImageWithSubQG` on unit
floats: brightness/contrast, temperature shift, saturation, then the wave
brightness variation, each step clamped to `[0,1]`. -/
def processPixel (acts : List ℚ) (brightnessFactor contrastFactor harmonyScore
    fieldInfluence r g b : ℚ) : ℚ × ℚ × ℚ :=
  let bm := brightnessMod brightnessFactor acts
  let cm := contrastMod contrastFactor acts
  let r1 := applyBrightnessContrast cm bm r
  let g1 := applyBrightnessContrast cm bm g
  let b1 := applyBrightnessContrast cm bm b
  let t := tempShifted harmonyScore fieldInfluence r1 g1 b1
  let s := satAdjusted harmonyScore fieldInfluence t.1 t.2.1 t.2.2
  let bv := brightnessFieldVariation harmonyScore fieldInfluence
  (clamp (s.1 + bv) 0 1, clamp (s.2.1 + bv) 0 1, clamp (s.2.2 + bv) 0 1)

/-- The four output bytes of the pixel at `(rowIdx, colIdx)`: read R,G,B
from the source bytes at `pixelIdx = 4 * (rowIdx * width + colIdx)` scaled
to `[0,1]`, run `processPixel` with the wave-field value
`FI rowIdx colIdx knotValue`, quantize back to bytes, and copy the alpha
byte through from the source. -/
def pixelBytes (w : ℕ) (data : List ℕ) (acts : List ℚ)
    (brightnessFactor contrastFactor : ℚ) (km : List (List ℚ))
    (harmonyScore : ℚ) (FI : ℕ → ℕ → ℚ → ℚ) (rowIdx colIdx : ℕ) : List ℕ :=
  let p := 4 * (rowIdx * w + colIdx)
  let kv := (km.getD rowIdx []).getD colIdx 0
  let q := processPixel acts brightnessFactor contrastFactor harmonyScore
    (FI rowIdx colIdx kv)
    ((data.getD p 0 : ℚ) / 255) ((data.getD (p+1) 0 : ℚ) / 255)
    ((data.getD (p+2) 0 : ℚ) / 255)
  [byteOf (q.1 * 255), byteOf (q.2.1 * 255), byteOf (q.2.2 * 255),
   data.getD (p+3) 0]

/-- `processImageWithSubQG` (the `originalData.slice()` revision): the
output buffer is rebuilt pixel by pixel, rows outer, columns inner, from
the untouched input bytes. `w`/`h` are the `ImageData` width and height
(`data.length = 4 * w * h` for a real `ImageData`). -/
def processImageWithSubQG (w h : ℕ) (data : List ℕ) (acts : List ℚ)
    (brightnessFactor contrastFactor : ℚ) (km : List (List ℚ))
    (harmonyScore : ℚ) (FI : ℕ → ℕ → ℚ → ℚ) : List ℕ :=
  (List.range h).flatMap (fun rowIdx =>
    (List.range w).flatMap (fun colIdx =>
      pixelBytes w data acts brightnessFactor contrastFactor km harmonyScore
        FI rowIdx colIdx))

/-- One loop iteration of the `new Uint8ClampedArray(originalData.buffer)`
revision of `processImageWithSubQG`: `newData` is a view over the very
same `ArrayBuffer` as `originalData`, so writing the four output bytes of
a pixel overwrites the input's bytes in place. Reads of a pixel happen
before its own writes, so each pixel still reads its original values. -/
def stepPixelShared (w : ℕ) (acts : List ℚ)
    (brightnessFactor contrastFactor : ℚ) (km : List (List ℚ))
    (harmonyScore : ℚ) (FI : ℕ → ℕ → ℚ → ℚ) (buf : List ℕ) (rc : ℕ × ℕ) :
    List ℕ :=
  let p := 4 * (rc.1 * w + rc.2)
  let bs := pixelBytes w buf acts brightnessFactor contrastFactor km
    harmonyScore FI rc.1 rc.2
  ((((buf.set p (bs.getD 0 0)).set (p+1) (bs.getD 1 0)).set
      (p+2) (bs.getD 2 0)).set (p+3) (bs.getD 3 0))

/-- The buffer-sharing revision of `processImageWithSubQG` as a whole:
fold the in-place pixel update over all pixels in loop order. The result
is simultaneously the returned `newImageData.data` and the final content
of the caller's input buffer (they alias the same storage). -/
def processImageWithSubQGBufferShared (w h : ℕ) (data : List ℕ)
    (acts : List ℚ) (brightnessFactor contrastFactor : ℚ)
    (km : List (List ℚ)) (harmonyScore : ℚ) (FI : ℕ → ℕ → ℚ → ℚ) : List ℕ :=
  ((List.range h).flatMap (fun rowIdx =>
    (List.range w).map (fun colIdx => (rowIdx, colIdx)))).foldl
    (stepPixelShared w acts brightnessFactor contrastFactor km harmonyScore FI)
    data

/-! ## The knot-map resampler (`resizeKnotMap` in the image helpers)

The canvas 2D context used for the actual rescaling (`drawImage` with
`imageSmoothingQuality = 'high'`) is a browser facility external to the
repository; it is threaded as an explicit `resample` parameter taking the
grayscale source bytes to target-sized grayscale bytes. Theorems assume
of it only what smooth interpolation provides: target dimensions, and no
output byte above the source maximum. -/

/-- The running maximum of all entries of a byte matrix, starting from 0 —
the `maxKnotVal` / `maxResizedVal` scan pattern of `resizeKnotMap`. -/
def matrixMax {α : Type} [LinearOrder α] (init : α) (m : List (List α)) : α :=
  m.foldl (fun acc row => row.foldl max acc) init

/-- `resizeKnotMap(knotMap, targetWidth, targetHeight)`: empty maps yield
an all-zero target-sized matrix; otherwise normalize by the source
maximum (0 treated as 1), render to grayscale bytes
(`Math.floor((v / maxKnotVal) * 255)`), resample via the canvas, read the
bytes back as values in `[0,1]`, and normalize once more by the resampled
maximum when it is positive. -/
def resizeKnotMap (resample : List (List ℕ) → ℕ → ℕ → List (List ℕ))
    (knotMap : List (List ℕ)) (targetWidth targetHeight : ℕ) :
    List (List ℚ) :=
  if knotMap.length = 0 ∨ (knotMap.headD []).length = 0 then
    List.replicate targetHeight (List.replicate targetWidth 0)
  else
    let maxKnotVal := max (matrixMax 0 knotMap) 1
    let srcBytes := knotMap.map (fun row => row.map
      (fun v => v * 255 / maxKnotVal))
    let resized := resample srcBytes targetWidth targetHeight
    let vals := resized.map (fun row => row.map (fun (b : ℕ) => (b : ℚ) / 255))
    let maxResizedVal := matrixMax 0 vals
    if 0 < maxResizedVal then
      vals.map (fun row => row.map (fun v => v / maxResizedVal))
    else vals

/-! ## Statistics helpers (`services/mathHelpers.ts`) and the projection
analyzer (`analyzeRiemannProjection` of `SubQGSimulator`), over `ℝ`. -/

/-- `calculateMean`: 0 on the empty list, else the sum over the length. -/
noncomputable def calculateMean (arr : List ℝ) : ℝ :=
  if arr.length = 0 then 0 else arr.sum / arr.length

/-- Ascending insertion into a sorted list — the embedding of the numeric
ascending sort `[...arr].sort((a, b) => a - b)`. -/
noncomputable def insertAsc (x : ℝ) : List ℝ → List ℝ
  | [] => [x]
  | y :: ys => if x ≤ y then x :: y :: ys else y :: insertAsc x ys

/-- Ascending numeric sort. -/
noncomputable def sortAsc (arr : List ℝ) : List ℝ :=
  arr.foldr insertAsc []

/-- `calculateMedian`: middle element of the ascending sort for odd
length, average of the two middle elements for even length. -/
noncomputable def calculateMedian (arr : List ℝ) : ℝ :=
  if arr.length = 0 then 0
  else
    let sortedArr := sortAsc arr
    let mid := arr.length / 2
    if arr.length % 2 ≠ 0 then sortedArr.getD mid 0
    else (sortedArr.getD (mid - 1) 0 + sortedArr.getD mid 0) / 2

/-- `calculateStdDev`: 0 for lists of at most one element, else the
population standard deviation `sqrt(Σ (v - mean)² / n)`. -/
noncomputable def calculateStdDev (arr : List ℝ) : ℝ :=
  if arr.length ≤ 1 then 0
  else Real.sqrt
    (((arr.map (fun v => (v - calculateMean arr) ^ 2)).sum) / arr.length)

/-- `calculatePtp`: peak-to-peak range `Math.max(...arr) - Math.min(...arr)`,
0 on the empty list. -/
noncomputable def calculatePtp (arr : List ℝ) : ℝ :=
  match arr with
  | [] => 0
  | x :: xs => xs.foldl max x - xs.foldl min x

/-- The `RiemannStats` result record of `analyzeRiemannProjection`. -/
structure RiemannStats where
  mean_re_s : ℝ
  median_re_s : ℝ
  std_dev_re_s : ℝ
  count_near_0_5 : ℕ
  total_projected_knots : ℕ
  harmony_score : ℝ
  internal_prescale_factor_used : ℝ

/-- `analyzeRiemannProjection` as a function of the detected knot base
values and the `re_s_scaling_c` parameter: degenerate record on an empty
log, otherwise project by `val * 5.0 * c`, take mean/median, the guarded
standard deviation, the count within `0.5 ± 0.05`, and the clamped
harmony score `0.6 * proximity + 0.4 * concentration`. -/
noncomputable def analyzeRiemannProjection (vals : List ℝ)
    (re_s_scaling_c : ℝ) : RiemannStats :=
  if vals.length = 0 then
    { mean_re_s := 0, median_re_s := 0, std_dev_re_s := 1
      count_near_0_5 := 0, total_projected_knots := 0, harmony_score := 0
      internal_prescale_factor_used := 0 }
  else
    let projected := vals.map (fun val => val * 5.0 * re_s_scaling_c)
    let mean_re_s := calculateMean projected
    let median_re_s := calculateMedian projected
    let std_dev_re_s :=
      if 1 < projected.length ∧ 0 < calculatePtp projected then
        calculateStdDev projected
      else 1
    let count_near_target := (projected.filter (fun val =>
      decide (0.5 - 0.05 ≤ val ∧ val ≤ 0.5 + 0.05))).length
    let mean_proximity_score := 1 - min 1 (|mean_re_s - 0.5| / (0.5 * 0.5))
    let concentration_score := 1 - min 1 (std_dev_re_s / 0.15)
    let harmony_score :=
      clamp (mean_proximity_score * 0.6 + concentration_score * 0.4) 0 1
    { mean_re_s := mean_re_s, median_re_s := median_re_s
      std_dev_re_s := std_dev_re_s, count_near_0_5 := count_near_target
      total_projected_knots := projected.length
      harmony_score := harmony_score
      internal_prescale_factor_used := 5.0 }

/-! ## The field simulator (`SubQGSimulator`), over `ℝ`. -/

/-- `SubQGParams`. Grid dimensions and duration are integers as the UI
provides them (so that non-positive values can be stated); the remaining
parameters are reals. -/
structure SubQGParams where
  field_w : ℤ
  field_h : ℤ
  sim_duration : ℤ
  f_energy : ℝ
  f_phase : ℝ
  noise_factor : ℝ
  threshold_s : ℝ
  decimal_precision : ℕ
  re_s_scaling_c : ℝ

/-- `linspace(start, stop, num)` as a function of the index:
`start + ((stop - start) / (num - 1)) * i`. -/
noncomputable def linspace (start stop : ℝ) (num : ℕ) (i : ℕ) : ℝ :=
  start + ((stop - start) / ((num : ℝ) - 1)) * i

/-- `omega_energy = f_energy * 2 * Math.PI`. -/
noncomputable def omega_energy (P : SubQGParams) : ℝ :=
  P.f_energy * 2 * Real.pi

/-- `omega_phase = f_phase * 2 * Math.PI`. -/
noncomputable def omega_phase (P : SubQGParams) : ℝ :=
  P.f_phase * 2 * Real.pi

/-- `time_component_energy = Math.sin(omega_energy * t / sim_duration)`. -/
noncomputable def timeComponentEnergy (P : SubQGParams) (t : ℕ) : ℝ :=
  Real.sin (omega_energy P * t / P.sim_duration)

/-- `time_component_phase = Math.sin(omega_phase * t / sim_duration)`. -/
noncomputable def timeComponentPhase (P : SubQGParams) (t : ℕ) : ℝ :=
  Real.sin (omega_phase P * t / P.sim_duration)

/-- The x spatial coordinate of column `c`: `linspace(0, 2π, field_w)[c]`. -/
noncomputable def xCoord (P : SubQGParams) (c : ℕ) : ℝ :=
  linspace 0 (2 * Real.pi) P.field_w.toNat c

/-- The y spatial coordinate of row `r`: `linspace(0, 2π, field_h)[r]`. -/
noncomputable def yCoord (P : SubQGParams) (r : ℕ) : ℝ :=
  linspace 0 (2 * Real.pi) P.field_h.toNat r

/-- `spatial_component = Math.sin(xv) * Math.cos(yv)`. `Real.sin` and
`Real.cos` stand for `Math.sin`/`Math.cos`; the library's double-precision
values can differ from the exact reals by rounding (notably the sine at
the floating endpoint near `2π` is a nonzero `≈ -2.45e-16` while
`Real.sin (2π) = 0`), so concrete-scenario theorems below rely only on
sine facts valid in both semantics: `sin 0 = 0` exactly, and the
nonvanishing of `sin`/`cos` far from their zeros. -/
noncomputable def spatialComponent (P : SubQGParams) (r c : ℕ) : ℝ :=
  Real.sin (xCoord P c) * Real.cos (yCoord P r)

/-- The energy field cell after `updateWaves(t)`:
`clamp(|time_component_energy + spatial| / 2 + random * noise_factor, 0,
1 + noise_factor)`, with `randE t r c` the fresh `Math.random()` draw of
that cell. -/
noncomputable def energyValue (P : SubQGParams) (randE : ℕ → ℕ → ℕ → ℝ)
    (t r c : ℕ) : ℝ :=
  clamp (|timeComponentEnergy P t + spatialComponent P r c| / 2 +
    randE t r c * P.noise_factor) 0 (1 + P.noise_factor)

/-- The phase field cell after `updateWaves(t)`, with its own independent
random draw. -/
noncomputable def phaseValue (P : SubQGParams) (randP : ℕ → ℕ → ℕ → ℝ)
    (t r c : ℕ) : ℝ :=
  clamp (|timeComponentPhase P t + spatialComponent P r c| / 2 +
    randP t r c * P.noise_factor) 0 (1 + P.noise_factor)

/-- `rounding_factor = Math.pow(10, decimal_precision)`. -/
noncomputable def rounding_factor (P : SubQGParams) : ℝ :=
  10 ^ P.decimal_precision

/-- `Math.round(v * rounding_factor) / rounding_factor` (JavaScript
`Math.round` is `⌊x + 1/2⌋`). -/
noncomputable def roundedTo (P : SubQGParams) (v : ℝ) : ℝ :=
  (Int.floor (v * rounding_factor P + 1/2) : ℝ) / rounding_factor P

/-- The knot condition of a cell in a step: both fields above
`threshold_s`, and equal after rounding to `decimal_precision` places. -/
def knotCondition (P : SubQGParams) (randE randP : ℕ → ℕ → ℕ → ℝ)
    (t r c : ℕ) : Prop :=
  P.threshold_s < energyValue P randE t r c ∧
  P.threshold_s < phaseValue P randP t r c ∧
  roundedTo P (energyValue P randE t r c) =
    roundedTo P (phaseValue P randP t r c)

/-- 1 when the cell registers a knot in the step, else 0 — the unit the
loop adds to `knot_map[r][c]` and to the knot counters. -/
noncomputable def knotIndicator (P : SubQGParams)
    (randE randP : ℕ → ℕ → ℕ → ℝ) (t r c : ℕ) : ℕ :=
  if knotCondition P randE randP t r c then 1 else 0

/-- The lifetime counter `knot_map[r][c]` after the run: once per step in
which the cell satisfied the knot condition. -/
noncomputable def knotMapEntry (P : SubQGParams)
    (randE randP : ℕ → ℕ → ℕ → ℝ) (r c : ℕ) : ℕ :=
  ∑ t ∈ Finset.range P.sim_duration.toNat, knotIndicator P randE randP t r c

/-- `total_knots_detected`: the per-step knot counts summed over all
steps, each step scanning rows then columns. -/
noncomputable def totalKnots (P : SubQGParams)
    (randE randP : ℕ → ℕ → ℕ → ℝ) : ℕ :=
  ∑ t ∈ Finset.range P.sim_duration.toNat,
    ∑ r ∈ Finset.range P.field_h.toNat,
      ∑ c ∈ Finset.range P.field_w.toNat, knotIndicator P randE randP t r c

/-- The returned `knot_map` as a row-major list of rows. -/
noncomputable def knotMapList (P : SubQGParams)
    (randE randP : ℕ → ℕ → ℕ → ℝ) : List (List ℕ) :=
  (List.range P.field_h.toNat).map (fun r =>
    (List.range P.field_w.toNat).map (fun c => knotMapEntry P randE randP r c))

/-- `detected_knot_base_values`: the raw (clamped, unrounded) energy value
of every detected knot, pushed in loop order (steps outer, rows, columns). -/
noncomputable def detectedKnotBaseValues (P : SubQGParams)
    (randE randP : ℕ → ℕ → ℕ → ℝ) : List ℝ :=
  (List.range P.sim_duration.toNat).flatMap (fun t =>
    (List.range P.field_h.toNat).flatMap (fun r =>
      (List.range P.field_w.toNat).filterMap (fun c =>
        if knotCondition P randE randP t r c then
          some (energyValue P randE t r c)
        else none)))

/-- `runSimulation`, including the only failure the constructor can
produce: `Array(field_h)` / `Array(field_w)` throw a `RangeError` for a
negative length (modelled as `none`); otherwise the run always returns
normally — the code performs no validation of `field_w`, `field_h` or
`sim_duration`, and a non-positive duration simply skips the time loop. -/
noncomputable def runSimulation (P : SubQGParams)
    (randE randP : ℕ → ℕ → ℕ → ℝ) : Option (List (List ℕ) × ℕ) :=
  if 0 ≤ P.field_h ∧ 0 ≤ P.field_w then
    some (knotMapList P randE randP, totalKnots P randE randP)
  else none

/-- The population standard deviation `sqrt(Σ (v - μ)² / n)` with
`μ = Σ v / n`, written out as the specification words it ("population
stddev of projected"), independently of the code's `calculateStdDev`,
for comparison. -/
noncomputable def populationStdDev (l : List ℝ) : ℝ :=
  Real.sqrt (((l.map (fun v => (v - l.sum / l.length) ^ 2)).sum) / l.length)

/-- The concrete scenario configuration of the spec:
`{W=4, H=4, T=1, f_e=0.15, f_p=0.155, noise=0, threshold_s=0.0,
precision=3, c=0.10}`. -/
noncomputable def scenarioParams : SubQGParams :=
  { field_w := 4, field_h := 4, sim_duration := 1, f_energy := 0.15
    f_phase := 0.155, noise_factor := 0, threshold_s := 0
    decimal_precision := 3, re_s_scaling_c := 0.10 }

/-- The scenario configuration with duration 0 — the example the
fail-fast claim says must not return a normal result. -/
noncomputable def durationZeroParams : SubQGParams :=
  { scenarioParams with sim_duration := 0 }

/-- The RandomSource fixed to always return 0. -/
def randZero : ℕ → ℕ → ℕ → ℝ := fun _ _ _ => 0

/-! ## Generic list helpers for buffer indexing and running maxima. -/

lemma list_eq_of_getD {α : Type} (d : α) :
    ∀ (l₁ l₂ : List α), l₁.length = l₂.length →
      (∀ i, i < l₁.length → l₁.getD i d = l₂.getD i d) → l₁ = l₂ := by
  intro l₁
  induction l₁ with
  | nil =>
    intro l₂ hlen _
    exact (List.length_eq_zero.mp hlen.symm).symm
  | cons x xs ih =>
    intro l₂ hlen hget
    cases l₂ with
    | nil => simp at hlen
    | cons y ys =>
      have hx : x = y := hget 0 (by simp)
      have htail : xs = ys := by
        refine ih ys (by simpa using hlen) ?_
        intro i hi
        have := hget (i + 1) (by simpa using Nat.succ_lt_succ hi)
        simpa using this
      rw [hx, htail]

lemma length_flat_uniform {α : Type} (k : ℕ) :
    ∀ (n : ℕ) (f : ℕ → List α), (∀ i, i < n → (f i).length = k) →
      ((List.range n).flatMap f).length = n * k := by
  intro n
  induction n with
  | zero => intro f _; simp
  | succ m ih =>
    intro f hf
    rw [List.range_succ, List.flatMap_append, List.length_append,
      ih f (fun i hi => hf i (Nat.lt_succ_of_lt hi))]
    simp [hf m (Nat.lt_succ_self m), Nat.succ_mul]

lemma getD_flat_uniform {α : Type} (d : α) (k : ℕ) :
    ∀ (n : ℕ) (f : ℕ → List α), (∀ i, i < n → (f i).length = k) →
      ∀ q r, q < n → r < k →
        ((List.range n).flatMap f).getD (k * q + r) d = (f q).getD r d := by
  intro n
  induction n with
  | zero => intro f _ q r hq; omega
  | succ m ih =>
    intro f hf q r hq hr
    have hfm : ∀ i, i < m → (f i).length = k :=
      fun i hi => hf i (Nat.lt_succ_of_lt hi)
    have hlen : ((List.range m).flatMap f).length = m * k :=
      length_flat_uniform k m f hfm
    rw [List.range_succ, List.flatMap_append]
    rcases Nat.lt_or_ge q m with hqm | hqm
    · have h1 : k * q + r < k * (q + 1) := by
        rw [Nat.mul_succ]; omega
      have h2 : k * (q + 1) ≤ m * k := by
        rw [Nat.mul_comm m k]; exact Nat.mul_le_mul_left k hqm
      have hidx : k * q + r < ((List.range m).flatMap f).length := by
        rw [hlen]; omega
      rw [List.getD_append _ _ _ _ hidx]
      exact ih f hfm q r hqm hr
    · have hqe : q = m := by omega
      subst hqe
      have hmc : q * k = k * q := Nat.mul_comm q k
      have hidx : ((List.range q).flatMap f).length ≤ k * q + r := by
        rw [hlen]; omega
      rw [List.getD_append_right _ _ _ _ hidx, hlen]
      have hsub : k * q + r - q * k = r := by omega
      rw [hsub]
      simp

lemma le_foldl_max {α : Type} [LinearOrder α] :
    ∀ (l : List α) (a : α), a ≤ l.foldl max a := by
  intro l
  induction l with
  | nil => intro a; simp
  | cons y ys ih =>
    intro a
    calc a ≤ max a y := le_max_left a y
    _ ≤ ys.foldl max (max a y) := ih (max a y)
    _ = (y :: ys).foldl max a := by simp

lemma mem_le_foldl_max {α : Type} [LinearOrder α] :
    ∀ (l : List α) (a x : α), x ∈ l → x ≤ l.foldl max a := by
  intro l
  induction l with
  | nil => intro a x hx; simp at hx
  | cons y ys ih =>
    intro a x hx
    rcases List.mem_cons.mp hx with h | h
    · subst h
      calc x ≤ max a x := le_max_right a x
      _ ≤ ys.foldl max (max a x) := le_foldl_max ys (max a x)
      _ = (x :: ys).foldl max a := by simp
    · exact ih (max a y) x h

lemma foldl_max_le {α : Type} [LinearOrder α] :
    ∀ (l : List α) (a c : α), a ≤ c → (∀ x ∈ l, x ≤ c) →
      l.foldl max a ≤ c := by
  intro l
  induction l with
  | nil => intro a c ha _; simpa using ha
  | cons y ys ih =>
    intro a c ha hall
    have : max a y ≤ c := max_le ha (hall y (by simp))
    simpa using ih (max a y) c this (fun x hx => hall x (List.mem_cons_of_mem y hx))

lemma init_le_matrixMax {α : Type} [LinearOrder α] :
    ∀ (m : List (List α)) (init : α), init ≤ matrixMax init m := by
  intro m
  induction m with
  | nil => intro init; simp [matrixMax]
  | cons row rows ih =>
    intro init
    calc init ≤ row.foldl max init := le_foldl_max row init
    _ ≤ matrixMax (row.foldl max init) rows := ih (row.foldl max init)
    _ = matrixMax init (row :: rows) := by simp [matrixMax]

lemma mem_le_matrixMax {α : Type} [LinearOrder α] :
    ∀ (m : List (List α)) (init : α) (row : List α) (x : α),
      row ∈ m → x ∈ row → x ≤ matrixMax init m := by
  intro m
  induction m with
  | nil => intro init row x hrow; simp at hrow
  | cons r rs ih =>
    intro init row x hrow hx
    rcases List.mem_cons.mp hrow with h | h
    · subst h
      calc x ≤ row.foldl max init := mem_le_foldl_max row init x hx
      _ ≤ matrixMax (row.foldl max init) rs := init_le_matrixMax rs _
      _ = matrixMax init (row :: rs) := by simp [matrixMax]
    · exact ih (r.foldl max init) row x h hx

lemma matrixMax_le {α : Type} [LinearOrder α] :
    ∀ (m : List (List α)) (init c : α), init ≤ c →
      (∀ row ∈ m, ∀ x ∈ row, x ≤ c) → matrixMax init m ≤ c := by
  intro m
  induction m with
  | nil => intro init c ha _; simpa [matrixMax] using ha
  | cons row rows ih =>
    intro init c ha hall
    have hrow : row.foldl max init ≤ c :=
      foldl_max_le row init c ha (fun x hx => hall row (by simp) x hx)
    have := ih (row.foldl max init) c hrow
      (fun r hr x hx => hall r (List.mem_cons_of_mem row hr) x hx)
    simpa [matrixMax] using this

lemma getD_le_of_forall_le {l : List ℕ} {c : ℕ} (h : ∀ b ∈ l, b ≤ c)
    (i : ℕ) : l.getD i 0 ≤ c := by
  rcases Nat.lt_or_ge i l.length with hi | hi
  · rw [List.getD_eq_getElem l 0 hi]
    exact h _ (l.getElem_mem hi)
  · rw [List.getD_eq_default l 0 hi]
    exact Nat.zero_le c

/-! ## Facts about the pixel transformer. -/

lemma clamp_eq_self {α : Type} [LinearOrder α] {v lo hi : α}
    (h1 : lo ≤ v) (h2 : v ≤ hi) : clamp v lo hi = v := by
  unfold clamp
  rw [max_eq_left h1, min_eq_left h2]

lemma byteOf_le_255 (q : ℚ) : byteOf q ≤ 255 := by
  unfold byteOf jsRound
  have h1 : clamp q 0 255 ≤ 255 := min_le_right _ _
  have h2 : Int.floor (clamp q 0 255 + 1/2) ≤ Int.floor ((255 : ℚ) + 1/2) :=
    Int.floor_le_floor (by linarith)
  have h3 : Int.floor ((255 : ℚ) + 1/2) = 255 := by norm_num
  omega

lemma byteOf_coe_nat {n : ℕ} (hn : n ≤ 255) : byteOf (n : ℚ) = n := by
  unfold byteOf jsRound
  have hc : clamp (n : ℚ) 0 255 = n :=
    clamp_eq_self (by positivity) (by exact_mod_cast hn)
  rw [hc]
  have : Int.floor ((n : ℚ) + 1/2) = (n : ℤ) := by
    rw [Int.floor_eq_iff]
    constructor
    · push_cast; linarith
    · push_cast; linarith
  omega

lemma brightnessMod_neutral :
    ∀ (acts : List ℚ), (∀ a ∈ acts, a = 1/2) →
      ∀ acc, acts.foldl (fun acc a => acc + (a - 0.5) * 0.15) acc = acc := by
  intro acts
  induction acts with
  | nil => intro _ acc; rfl
  | cons x xs ih =>
    intro h acc
    have hx : x = 1/2 := h x (by simp)
    have hxs : ∀ a ∈ xs, a = 1/2 := fun a ha => h a (List.mem_cons_of_mem x ha)
    simp only [List.foldl_cons]
    rw [show acc + (x - 0.5) * 0.15 = acc by rw [hx]; norm_num]
    exact ih hxs acc

lemma contrastMod_neutral :
    ∀ (acts : List ℚ), (∀ a ∈ acts, a = 1/2) →
      ∀ acc, acts.foldl (fun acc a => acc * (1 + (a - 0.5) * 0.10)) acc = acc := by
  intro acts
  induction acts with
  | nil => intro _ acc; rfl
  | cons x xs ih =>
    intro h acc
    have hx : x = 1/2 := h x (by simp)
    have hxs : ∀ a ∈ xs, a = 1/2 := fun a ha => h a (List.mem_cons_of_mem x ha)
    simp only [List.foldl_cons]
    rw [show acc * (1 + (x - 0.5) * 0.10) = acc by rw [hx]; norm_num]
    exact ih hxs acc

/-- With neutral inputs — brightness 0, contrast 1, every activation at
0.5, harmony 0.5 and wave-field value 0 — the per-pixel pipeline is the
identity on in-range channels. -/
lemma processPixel_neutral (acts : List ℚ) (hacts : ∀ a ∈ acts, a = 1/2)
    (r g b : ℚ) (hr0 : 0 ≤ r) (hr1 : r ≤ 1) (hg0 : 0 ≤ g) (hg1 : g ≤ 1)
    (hb0 : 0 ≤ b) (hb1 : b ≤ 1) :
    processPixel acts 0 1 (1/2) 0 r g b = (r, g, b) := by
  have hbm : brightnessMod 0 acts = 0 := brightnessMod_neutral acts hacts 0
  have hcm : contrastMod 1 acts = 1 := contrastMod_neutral acts hacts 1
  have habc : ∀ v : ℚ, 0 ≤ v → v ≤ 1 → applyBrightnessContrast 1 0 v = v := by
    intro v h0 h1
    unfold applyBrightnessContrast
    rw [show (v - 0.5) * 1 + 0.5 + 0 = v by ring]
    exact clamp_eq_self h0 h1
  have hets : effectiveColorTempShift (1/2) 0 = 0 := by
    norm_num [effectiveColorTempShift, colorTempShift,
      fieldColorModulationStrength]
  have hesf : effectiveSaturationFactor (1/2) 0 = 1 := by
    norm_num [effectiveSaturationFactor, saturationFactor,
      fieldColorModulationStrength]
  have htemp : tempShifted (1/2) 0 r g b = (r, g, b) := by
    unfold tempShifted
    dsimp only
    rw [hets]
    rw [if_neg (by norm_num)]
    rw [show r + 0 * (0.15 : ℚ) = r by ring, show b - 0 * (0.20 : ℚ) = b by ring]
    rw [clamp_eq_self hr0 hr1, clamp_eq_self hg0 hg1, clamp_eq_self hb0 hb1]
  have hsat : satAdjusted (1/2) 0 r g b = (r, g, b) := by
    unfold satAdjusted
    dsimp only
    rw [hesf]
    have hl : ∀ v : ℚ, 0 ≤ v → v ≤ 1 →
        clamp (0.299 * r + 0.587 * g + 0.114 * b +
          (v - (0.299 * r + 0.587 * g + 0.114 * b)) * 1) 0 1 = v := by
      intro v h0 h1
      rw [show 0.299 * r + 0.587 * g + 0.114 * b +
        (v - (0.299 * r + 0.587 * g + 0.114 * b)) * 1 = v by ring]
      exact clamp_eq_self h0 h1
    rw [hl r hr0 hr1, hl g hg0 hg1, hl b hb0 hb1]
  have hbv : brightnessFieldVariation (1/2) 0 = 0 := by
    norm_num [brightnessFieldVariation, fieldBrightnessVariationStrength]
  unfold processPixel
  dsimp only
  rw [hbm, hcm, habc r hr0 hr1, habc g hg0 hg1, habc b hb0 hb1, htemp]
  dsimp only
  rw [hsat]
  dsimp only
  rw [hbv]
  rw [show r + 0 = r by ring, show g + 0 = g by ring, show b + 0 = b by ring]
  rw [clamp_eq_self hr0 hr1, clamp_eq_self hg0 hg1, clamp_eq_self hb0 hb1]

/-- With neutral inputs the four output bytes of a pixel are exactly its
four input bytes. -/
lemma pixelBytes_neutral (w : ℕ) (data : List ℕ) (acts : List ℚ)
    (km : List (List ℚ)) (hacts : ∀ a ∈ acts, a = 1/2)
    (hdata : ∀ x ∈ data, x ≤ 255) (q c : ℕ) :
    pixelBytes w data acts 0 1 km (1/2) (fun _ _ _ => 0) q c =
      [data.getD (4 * (q * w + c)) 0, data.getD (4 * (q * w + c) + 1) 0,
       data.getD (4 * (q * w + c) + 2) 0, data.getD (4 * (q * w + c) + 3) 0] := by
  have hch : ∀ i : ℕ, 0 ≤ (data.getD i 0 : ℚ) / 255 ∧
      (data.getD i 0 : ℚ) / 255 ≤ 1 := by
    intro i
    constructor
    · positivity
    · rw [div_le_one (by norm_num)]
      exact_mod_cast getD_le_of_forall_le hdata i
  unfold pixelBytes
  dsimp only
  rw [processPixel_neutral acts hacts _ _ _ (hch _).1 (hch _).2 (hch _).1
    (hch _).2 (hch _).1 (hch _).2]
  dsimp only
  have hbyte : ∀ i : ℕ, byteOf ((data.getD i 0 : ℚ) / 255 * 255) =
      data.getD i 0 := by
    intro i
    rw [show (data.getD i 0 : ℚ) / 255 * 255 = (data.getD i 0 : ℚ) by
      field_simp]
    exact byteOf_coe_nat (getD_le_of_forall_le hdata i)
  rw [hbyte, hbyte, hbyte]

lemma pixelBytes_length (w : ℕ) (data : List ℕ) (acts : List ℚ)
    (bf cf : ℚ) (km : List (List ℚ)) (hs : ℚ) (FI : ℕ → ℕ → ℚ → ℚ)
    (q c : ℕ) :
    (pixelBytes w data acts bf cf km hs FI q c).length = 4 := rfl

lemma processImageWithSubQG_length (w h : ℕ) (data : List ℕ) (acts : List ℚ)
    (bf cf : ℚ) (km : List (List ℚ)) (hs : ℚ) (FI : ℕ → ℕ → ℚ → ℚ) :
    (processImageWithSubQG w h data acts bf cf km hs FI).length = h * (w * 4) := by
  unfold processImageWithSubQG
  apply length_flat_uniform
  intro i _
  apply length_flat_uniform
  intro j _
  rfl

lemma processImageWithSubQG_getD (w h : ℕ) (data : List ℕ) (acts : List ℚ)
    (bf cf : ℚ) (km : List (List ℚ)) (hs : ℚ) (FI : ℕ → ℕ → ℚ → ℚ)
    (q c j : ℕ) (hq : q < h) (hc : c < w) (hj : j < 4) :
    (processImageWithSubQG w h data acts bf cf km hs FI).getD
      ((w * 4) * q + (4 * c + j)) 0 =
      (pixelBytes w data acts bf cf km hs FI q c).getD j 0 := by
  unfold processImageWithSubQG
  have hrow : ∀ i, i < h → ((List.range w).flatMap (fun colIdx =>
      pixelBytes w data acts bf cf km hs FI i colIdx)).length = w * 4 := by
    intro i _
    apply length_flat_uniform
    intro j _
    rfl
  rw [getD_flat_uniform 0 (w * 4) h _ hrow q (4 * c + j) hq (by omega)]
  exact getD_flat_uniform 0 4 w
    (fun colIdx => pixelBytes w data acts bf cf km hs FI q colIdx)
    (fun i _ => pixelBytes_length w data acts bf cf km hs FI q i) c j hc hj

lemma index_decomp (w h i : ℕ) (hi : i < h * (w * 4)) :
    ∃ q c j, q < h ∧ c < w ∧ j < 4 ∧ i = (w * 4) * q + (4 * c + j) ∧
      (w * 4) * q + (4 * c + j) = 4 * (q * w + c) + j := by
  rcases Nat.eq_zero_or_pos w with hw | hw
  · subst hw; simp at hi
  refine ⟨i / (w * 4), (i % (w * 4)) / 4, (i % (w * 4)) % 4, ?_, ?_, ?_, ?_, ?_⟩
  · exact Nat.div_lt_of_lt_mul (by rw [Nat.mul_comm]; exact hi)
  · exact Nat.div_lt_of_lt_mul (by rw [Nat.mul_comm]; exact Nat.mod_lt i (by omega))
  · exact Nat.mod_lt _ (by omega)
  · have h1 := Nat.div_add_mod i (w * 4)
    have h2 := Nat.div_add_mod (i % (w * 4)) 4
    omega
  · have h3 : (w * 4) * (i / (w * 4)) = 4 * ((i / (w * 4)) * w) := by ring
    have h4 : 4 * ((i / (w * 4)) * w + (i % (w * 4)) / 4) =
        4 * ((i / (w * 4)) * w) + 4 * ((i % (w * 4)) / 4) := by ring
    omega

/-- Claim C1 (amended): for every input buffer of in-range bytes and all
parameters, the slice-based `processImageWithSubQG` returns a buffer of
the same pixel count (identical dimensions), every output alpha byte
equals the corresponding input alpha byte, and every output byte is at
most 255. -/
theorem claim_C1_amended (w h : ℕ) (data : List ℕ) (acts : List ℚ)
    (bf cf : ℚ) (km : List (List ℚ)) (hs : ℚ) (FI : ℕ → ℕ → ℚ → ℚ)
    (hdata : ∀ x ∈ data, x ≤ 255) :
    (processImageWithSubQG w h data acts bf cf km hs FI).length = 4 * (h * w) ∧
    (∀ i, i < 4 * (h * w) → i % 4 = 3 →
      (processImageWithSubQG w h data acts bf cf km hs FI).getD i 0 =
        data.getD i 0) ∧
    (∀ i, i < 4 * (h * w) →
      (processImageWithSubQG w h data acts bf cf km hs FI).getD i 0 ≤ 255) := by
  refine ⟨?_, ?_, ?_⟩
  · rw [processImageWithSubQG_length]; ring
  · intro i hi hmod
    obtain ⟨q, c, j, hq, hc, hj, hidx1, hidx2⟩ :=
      index_decomp w h i (by have hring : h * (w * 4) = 4 * (h * w) := by ring
                             omega)
    have hj3 : j = 3 := by omega
    subst hj3
    rw [hidx1, processImageWithSubQG_getD w h data acts bf cf km hs FI
      q c 3 hq hc (by omega)]
    have : (pixelBytes w data acts bf cf km hs FI q c).getD 3 0 =
        data.getD (4 * (q * w + c) + 3) 0 := rfl
    rw [this]
    congr 1
    omega
  · intro i hi
    obtain ⟨q, c, j, hq, hc, hj, hidx1, hidx2⟩ :=
      index_decomp w h i (by have hring : h * (w * 4) = 4 * (h * w) := by ring
                             omega)
    rw [hidx1, processImageWithSubQG_getD w h data acts bf cf km hs FI
      q c j hq hc hj]
    unfold pixelBytes
    dsimp only
    match j, hj with
    | 0, _ => exact byteOf_le_255 _
    | 1, _ => exact byteOf_le_255 _
    | 2, _ => exact byteOf_le_255 _
    | 3, _ => exact getD_le_of_forall_le hdata _

/-- Claim C1 witness: the guarantees of `claim_C1_amended` evaluated on a
concrete 1×1 image. -/
theorem claim_C1_witness :
    (processImageWithSubQG 1 1 [128, 128, 128, 255] [] 0 1 [[0]] 1
      (fun _ _ _ => 0)).length = 4 * (1 * 1) ∧
    (processImageWithSubQG 1 1 [128, 128, 128, 255] [] 0 1 [[0]] 1
      (fun _ _ _ => 0)).getD 3 0 = [128, 128, 128, 255].getD 3 0 ∧
    (processImageWithSubQG 1 1 [128, 128, 128, 255] [] 0 1 [[0]] 1
      (fun _ _ _ => 0)).getD 0 0 ≤ 255 := by
  have h := claim_C1_amended 1 1 [128, 128, 128, 255] [] 0 1 [[0]] 1
    (fun _ _ _ => 0) (by intro x hx; fin_cases hx <;> norm_num)
  exact ⟨h.1, h.2.1 3 (by norm_num) (by norm_num), h.2.2 0 (by norm_num)⟩

/-- Claim C1 counterexample: the `new Uint8ClampedArray(originalData.buffer)`
revision aliases the input buffer, so after transforming a 1×1 gray image
with harmony 1 the input's bytes no longer hold their original values —
the input buffer is mutated. -/
theorem claim_C1_counterexample :
    processImageWithSubQGBufferShared 1 1 [128, 128, 128, 255] [] 0 1
      [[0]] 1 (fun _ _ _ => 0) ≠ [128, 128, 128, 255] := by
  simp only [processImageWithSubQGBufferShared, stepPixelShared, pixelBytes,
    processPixel, brightnessMod, contrastMod, applyBrightnessContrast,
    tempShifted, satAdjusted, effectiveColorTempShift,
    effectiveSaturationFactor, colorTempShift, saturationFactor,
    fieldColorModulationStrength, fieldBrightnessVariationStrength,
    brightnessFieldVariation, byteOf, jsRound, clamp, List.range_succ,
    List.range_zero, List.flatMap_nil, List.flatMap_append, List.flatMap_cons,
    List.append_nil, List.nil_append, List.map_cons, List.map_nil,
    List.foldl, List.getD, List.set, min_def, max_def]
  norm_num
  omega

/-- Claim C8 (amended): with brightness 0, contrast 1, all activations at
0.5, the wave-field influence forced to 0, and additionally a neutral
harmony score of 0.5, the transformer is the exact identity on the pixel
buffer. -/
theorem claim_C8_amended (w h : ℕ) (data : List ℕ) (acts : List ℚ)
    (km : List (List ℚ)) (hacts : ∀ a ∈ acts, a = 1/2)
    (hdata : ∀ x ∈ data, x ≤ 255) (hlen : data.length = 4 * (h * w)) :
    processImageWithSubQG w h data acts 0 1 km (1/2) (fun _ _ _ => 0) =
      data := by
  apply list_eq_of_getD 0
  · rw [processImageWithSubQG_length, hlen]; ring
  · intro i hi
    rw [processImageWithSubQG_length] at hi
    obtain ⟨q, c, j, hq, hc, hj, hidx1, hidx2⟩ := index_decomp w h i hi
    rw [hidx1, processImageWithSubQG_getD w h data acts 0 1 km (1/2)
      (fun _ _ _ => 0) q c j hq hc hj,
      pixelBytes_neutral w data acts km hacts hdata q c]
    have hI : (w * 4) * q + (4 * c + j) = 4 * (q * w + c) + j := hidx2
    rw [hI]
    interval_cases j
    all_goals simp [List.getD]

/-- Claim C8 witness: the amended identity evaluated on a concrete 1×1
image with one neutral activation. -/
theorem claim_C8_witness :
    processImageWithSubQG 1 1 [128, 128, 128, 255] [1/2] 0 1 [[0]] (1/2)
      (fun _ _ _ => 0) = [128, 128, 128, 255] :=
  claim_C8_amended 1 1 [128, 128, 128, 255] [1/2] [[0]]
    (by intro a ha; fin_cases ha; norm_num)
    (by intro x hx; fin_cases hx <;> norm_num) (by norm_num)

/-- Claim C8 counterexample: the claim as stated leaves the harmony score
free; with harmony 1 (and all the claim's other neutral settings — 
brightness 0, contrast 1, activation 0.5, field influence 0) the
transformer is not the identity: the warm temperature shift and the
saturation boost change a gray pixel. -/
theorem claim_C8_counterexample :
    processImageWithSubQG 1 1 [128, 128, 128, 255] [1/2] 0 1 [[0]] 1
      (fun _ _ _ => 0) ≠ [128, 128, 128, 255] := by
  simp only [processImageWithSubQG, pixelBytes, processPixel, brightnessMod,
    contrastMod, applyBrightnessContrast, tempShifted, satAdjusted,
    effectiveColorTempShift, effectiveSaturationFactor, colorTempShift,
    saturationFactor, fieldColorModulationStrength,
    fieldBrightnessVariationStrength, brightnessFieldVariation, byteOf,
    jsRound, clamp, List.range_succ, List.range_zero, List.flatMap_nil,
    List.flatMap_append, List.flatMap_cons, List.append_nil, List.nil_append,
    List.foldl, List.getD, min_def, max_def]
  norm_num
  omega

/-- Claim C4 counterexample: the saturation factor is not modulated by
`(1 + fieldInfluence * s)` with the same strength `s = 0.15 * (1 - harmony)`
as the temperature shift. At harmony 0 and field influence 1 the code's
factor is `0.875 * (1 + 0.15 * 0.5) = 301/320`, while the claimed formula
gives `0.875 * (1 + 0.15) = 161/160`. -/
theorem claim_C4_counterexample :
    effectiveSaturationFactor 0 1 = 301/320 ∧
    saturationFactor 0 * (1 + 1 * fieldColorModulationStrength 0) = 161/160 ∧
    effectiveSaturationFactor 0 1 ≠
      saturationFactor 0 * (1 + 1 * fieldColorModulationStrength 0) := by
  refine ⟨?_, ?_, ?_⟩
  · norm_num [effectiveSaturationFactor, saturationFactor,
      fieldColorModulationStrength]
  · norm_num [saturationFactor, fieldColorModulationStrength]
  · norm_num [effectiveSaturationFactor, saturationFactor,
      fieldColorModulationStrength]

/-- Claim C4 (amended): the temperature shift is multiplied by
`(1 + fieldInfluence * s)` with `s = 0.15 * (1 - harmony)`, the saturation
factor by `(1 + fieldInfluence * s * 0.5)` — half the field modulation —
and the later brightness delta uses strength `0.10 * (1 - harmony)`. -/
theorem claim_C4_amended (h f : ℚ) :
    effectiveColorTempShift h f =
      ((h - 1/2) * (1/4)) * (1 + f * (3/20 * (1 - h))) ∧
    effectiveSaturationFactor h f =
      (1 + (h - 1/2) * (1/4)) * (1 + f * (3/20 * (1 - h)) * (1/2)) ∧
    brightnessFieldVariation h f = f * (1/10 * (1 - h)) := by
  refine ⟨?_, ?_, ?_⟩
  · unfold effectiveColorTempShift colorTempShift fieldColorModulationStrength
    norm_num
  · unfold effectiveSaturationFactor saturationFactor
      fieldColorModulationStrength
    norm_num
  · unfold brightnessFieldVariation fieldBrightnessVariationStrength
    norm_num

/-- Claim C5: on an empty knot event log, `analyzeRiemannProjection`
returns exactly the degenerate record with mean 0, median 0, standard
deviation 1, count near target 0, total 0, harmony 0 and prescale 0. -/
theorem claim_C5 (c : ℝ) : analyzeRiemannProjection [] c =
    { mean_re_s := 0, median_re_s := 0, std_dev_re_s := 1
      count_near_0_5 := 0, total_projected_knots := 0, harmony_score := 0
      internal_prescale_factor_used := 0 } := rfl

/-- Claim C6: for a non-empty log the reported standard deviation is the
population standard deviation of the projected values exactly when the
projected sequence has more than one element and strictly positive range,
and is the fixed value 1 otherwise. -/
theorem claim_C6 (vals : List ℝ) (c : ℝ) (hne : vals ≠ []) :
    ((1 < (vals.map (fun val => val * 5.0 * c)).length ∧
        0 < calculatePtp (vals.map (fun val => val * 5.0 * c))) →
      (analyzeRiemannProjection vals c).std_dev_re_s =
        populationStdDev (vals.map (fun val => val * 5.0 * c))) ∧
    (¬ (1 < (vals.map (fun val => val * 5.0 * c)).length ∧
        0 < calculatePtp (vals.map (fun val => val * 5.0 * c))) →
      (analyzeRiemannProjection vals c).std_dev_re_s = 1) := by
  have hlen : ¬ vals.length = 0 := by simpa using hne
  constructor
  · intro hcond
    unfold analyzeRiemannProjection
    rw [if_neg hlen]
    dsimp only
    rw [if_pos hcond]
    unfold calculateStdDev populationStdDev calculateMean
    rw [if_neg (by omega : ¬ (vals.map (fun val => val * 5.0 * c)).length ≤ 1),
      if_neg (by omega : ¬ (vals.map (fun val => val * 5.0 * c)).length = 0)]
  · intro hcond
    unfold analyzeRiemannProjection
    rw [if_neg hlen]
    dsimp only
    rw [if_neg hcond]

/-- Claim C6 witness: the log `[0.1, 0.1, 0.1]` with `c = 1` projects to
three identical values `0.5`, has zero range, and therefore reports the
fallback standard deviation 1. -/
theorem claim_C6_witness :
    (analyzeRiemannProjection [0.1, 0.1, 0.1] 1).std_dev_re_s = 1 := by
  apply (claim_C6 [0.1, 0.1, 0.1] 1 (by simp)).2
  intro hcond
  have hptp : calculatePtp ([0.1, 0.1, 0.1].map
      (fun val => val * 5.0 * 1)) = 0 := by
    norm_num [calculatePtp, List.foldl]
  rw [hptp] at hcond
  exact absurd hcond.2 (lt_irrefl 0)

/-- Claim C7: for every non-empty log the harmony score equals
`clamp(0.6 * (1 - min 1 (|mean - 0.5| / 0.25)) +
0.4 * (1 - min 1 (stddev / 0.15)), 0, 1)` and lies in `[0, 1]`. -/
theorem claim_C7 (vals : List ℝ) (c : ℝ) (hne : vals ≠ []) :
    (analyzeRiemannProjection vals c).harmony_score =
      clamp (0.6 * (1 - min 1
          (|(analyzeRiemannProjection vals c).mean_re_s - 0.5| / 0.25)) +
        0.4 * (1 - min 1
          ((analyzeRiemannProjection vals c).std_dev_re_s / 0.15))) 0 1 ∧
    0 ≤ (analyzeRiemannProjection vals c).harmony_score ∧
    (analyzeRiemannProjection vals c).harmony_score ≤ 1 := by
  have hlen : ¬ vals.length = 0 := by simpa using hne
  have hform : (analyzeRiemannProjection vals c).harmony_score =
      clamp (0.6 * (1 - min 1
          (|(analyzeRiemannProjection vals c).mean_re_s - 0.5| / 0.25)) +
        0.4 * (1 - min 1
          ((analyzeRiemannProjection vals c).std_dev_re_s / 0.15))) 0 1 := by
    unfold analyzeRiemannProjection
    rw [if_neg hlen]
    dsimp only
    unfold clamp
    congr 2
    norm_num
    ring
  refine ⟨hform, ?_, ?_⟩
  · rw [hform]
    unfold clamp
    exact le_min (le_max_right _ 0) (by norm_num)
  · rw [hform]
    unfold clamp
    exact min_le_right _ 1

/-- Claim C7 witness: the bounds and formula applied to the one-element
log `[0.1]` with `c = 1`. -/
theorem claim_C7_witness :
    0 ≤ (analyzeRiemannProjection [0.1] 1).harmony_score ∧
    (analyzeRiemannProjection [0.1] 1).harmony_score ≤ 1 :=
  ⟨(claim_C7 [0.1] 1 (by simp)).2.1, (claim_C7 [0.1] 1 (by simp)).2.2⟩

lemma scenario_timeE : timeComponentEnergy scenarioParams 0 = 0 := by
  unfold timeComponentEnergy omega_energy
  norm_num

lemma scenario_timeP : timeComponentPhase scenarioParams 0 = 0 := by
  unfold timeComponentPhase omega_phase
  norm_num

lemma scenario_xCoord (c : ℕ) :
    xCoord scenarioParams c = 2 * Real.pi / 3 * c := by
  unfold xCoord linspace
  have h4 : scenarioParams.field_w.toNat = 4 := rfl
  rw [h4]
  norm_num

lemma scenario_yCoord (r : ℕ) :
    yCoord scenarioParams r = 2 * Real.pi / 3 * r := by
  unfold yCoord linspace
  have h4 : scenarioParams.field_h.toNat = 4 := rfl
  rw [h4]
  norm_num

lemma scenario_sin0 : Real.sin (xCoord scenarioParams 0) = 0 := by
  rw [scenario_xCoord]
  norm_num

lemma scenario_sin1 : Real.sin (xCoord scenarioParams 1) = Real.sqrt 3 / 2 := by
  rw [scenario_xCoord]
  rw [show 2 * Real.pi / 3 * ((1:ℕ):ℝ) = Real.pi - Real.pi / 3 by
    push_cast; ring]
  rw [Real.sin_pi_sub, Real.sin_pi_div_three]

lemma scenario_sin2 : Real.sin (xCoord scenarioParams 2) =
    -(Real.sqrt 3 / 2) := by
  rw [scenario_xCoord]
  rw [show 2 * Real.pi / 3 * ((2:ℕ):ℝ) = Real.pi + Real.pi / 3 by
    push_cast; ring]
  rw [Real.sin_add]
  norm_num [Real.sin_pi, Real.cos_pi, Real.sin_pi_div_three]

lemma scenario_cos0 : Real.cos (yCoord scenarioParams 0) = 1 := by
  rw [scenario_yCoord]
  norm_num

lemma scenario_cos1 : Real.cos (yCoord scenarioParams 1) = -(1/2) := by
  rw [scenario_yCoord]
  rw [show 2 * Real.pi / 3 * ((1:ℕ):ℝ) = Real.pi - Real.pi / 3 by
    push_cast; ring]
  rw [Real.cos_pi_sub, Real.cos_pi_div_three]

lemma scenario_cos2 : Real.cos (yCoord scenarioParams 2) = -(1/2) := by
  rw [scenario_yCoord]
  rw [show 2 * Real.pi / 3 * ((2:ℕ):ℝ) = Real.pi + Real.pi / 3 by
    push_cast; ring]
  rw [Real.cos_add]
  norm_num [Real.sin_pi, Real.cos_pi, Real.cos_pi_div_three]

lemma scenario_cos3 : Real.cos (yCoord scenarioParams 3) = 1 := by
  rw [scenario_yCoord]
  rw [show 2 * Real.pi / 3 * ((3:ℕ):ℝ) = 2 * Real.pi by push_cast; ring]
  exact Real.cos_two_pi

lemma scenario_energy (r c : ℕ) :
    energyValue scenarioParams randZero 0 r c =
      |Real.sin (xCoord scenarioParams c) *
        Real.cos (yCoord scenarioParams r)| / 2 := by
  unfold energyValue spatialComponent
  rw [scenario_timeE, zero_add]
  have hn : scenarioParams.noise_factor = 0 := rfl
  have hr : randZero 0 r c = 0 := rfl
  rw [hn, hr]
  rw [show |Real.sin (xCoord scenarioParams c) *
      Real.cos (yCoord scenarioParams r)| / 2 + 0 * 0 =
    |Real.sin (xCoord scenarioParams c) *
      Real.cos (yCoord scenarioParams r)| / 2 by ring]
  apply clamp_eq_self
  · positivity
  · have h1 : |Real.sin (xCoord scenarioParams c) *
        Real.cos (yCoord scenarioParams r)| ≤ 1 := by
      rw [abs_mul]
      exact mul_le_one₀ (Real.abs_sin_le_one _) (abs_nonneg _)
        (Real.abs_cos_le_one _)
    linarith

lemma scenario_phase (r c : ℕ) :
    phaseValue scenarioParams randZero 0 r c =
      |Real.sin (xCoord scenarioParams c) *
        Real.cos (yCoord scenarioParams r)| / 2 := by
  unfold phaseValue spatialComponent
  rw [scenario_timeP, zero_add]
  have hn : scenarioParams.noise_factor = 0 := rfl
  have hr : randZero 0 r c = 0 := rfl
  rw [hn, hr]
  rw [show |Real.sin (xCoord scenarioParams c) *
      Real.cos (yCoord scenarioParams r)| / 2 + 0 * 0 =
    |Real.sin (xCoord scenarioParams c) *
      Real.cos (yCoord scenarioParams r)| / 2 by ring]
  apply clamp_eq_self
  · positivity
  · have h1 : |Real.sin (xCoord scenarioParams c) *
        Real.cos (yCoord scenarioParams r)| ≤ 1 := by
      rw [abs_mul]
      exact mul_le_one₀ (Real.abs_sin_le_one _) (abs_nonneg _)
        (Real.abs_cos_le_one _)
    linarith

lemma scenario_indicator (r c : ℕ) :
    knotIndicator scenarioParams randZero randZero 0 r c =
      if 0 < |Real.sin (xCoord scenarioParams c) *
          Real.cos (yCoord scenarioParams r)| / 2 then 1 else 0 := by
  unfold knotIndicator knotCondition
  rw [scenario_energy, scenario_phase]
  have ht : scenarioParams.threshold_s = 0 := rfl
  rw [ht]
  by_cases h : 0 < |Real.sin (xCoord scenarioParams c) *
      Real.cos (yCoord scenarioParams r)| / 2
  · rw [if_pos ⟨h, h, rfl⟩, if_pos h]
  · rw [if_neg, if_neg h]
    rintro ⟨h1, _, _⟩
    exact h h1

lemma scenario_ind_zero (r c : ℕ)
    (hs : Real.sin (xCoord scenarioParams c) = 0) :
    knotIndicator scenarioParams randZero randZero 0 r c = 0 := by
  rw [scenario_indicator, hs]
  simp

lemma scenario_ind_pos (r c : ℕ)
    (hs : Real.sin (xCoord scenarioParams c) ≠ 0)
    (hc : Real.cos (yCoord scenarioParams r) ≠ 0) :
    knotIndicator scenarioParams randZero randZero 0 r c = 1 := by
  rw [scenario_indicator, if_pos]
  exact div_pos (abs_pos.mpr (mul_ne_zero hs hc)) two_pos

lemma scenario_sin1_ne : Real.sin (xCoord scenarioParams 1) ≠ 0 := by
  rw [scenario_sin1]
  positivity

lemma scenario_sin2_ne : Real.sin (xCoord scenarioParams 2) ≠ 0 := by
  rw [scenario_sin2]
  have h : (0:ℝ) < Real.sqrt 3 / 2 := by positivity
  intro hcon
  rw [neg_eq_zero] at hcon
  exact absurd hcon (ne_of_gt h)

lemma scenario_cos0_ne : Real.cos (yCoord scenarioParams 0) ≠ 0 := by
  rw [scenario_cos0]; norm_num

lemma scenario_cos1_ne : Real.cos (yCoord scenarioParams 1) ≠ 0 := by
  rw [scenario_cos1]; norm_num

lemma scenario_cos2_ne : Real.cos (yCoord scenarioParams 2) ≠ 0 := by
  rw [scenario_cos2]; norm_num

lemma scenario_cos3_ne : Real.cos (yCoord scenarioParams 3) ≠ 0 := by
  rw [scenario_cos3]; norm_num

lemma scenario_ind_le_one (t r c : ℕ) :
    knotIndicator scenarioParams randZero randZero t r c ≤ 1 := by
  unfold knotIndicator
  by_cases h : knotCondition scenarioParams randZero randZero t r c
  · rw [if_pos h]
  · rw [if_neg h]
    omega

lemma scenario_total_bounds :
    8 ≤ totalKnots scenarioParams randZero randZero ∧
    totalKnots scenarioParams randZero randZero ≤ 12 := by
  unfold totalKnots
  have hT : scenarioParams.sim_duration.toNat = 1 := rfl
  have hH : scenarioParams.field_h.toNat = 4 := rfl
  have hW : scenarioParams.field_w.toNat = 4 := rfl
  rw [hT, hH, hW]
  simp only [Finset.sum_range_succ, Finset.sum_range_zero]
  rw [scenario_ind_zero 0 0 scenario_sin0, scenario_ind_zero 1 0 scenario_sin0,
    scenario_ind_zero 2 0 scenario_sin0, scenario_ind_zero 3 0 scenario_sin0,
    scenario_ind_pos 0 1 scenario_sin1_ne scenario_cos0_ne,
    scenario_ind_pos 1 1 scenario_sin1_ne scenario_cos1_ne,
    scenario_ind_pos 2 1 scenario_sin1_ne scenario_cos2_ne,
    scenario_ind_pos 3 1 scenario_sin1_ne scenario_cos3_ne,
    scenario_ind_pos 0 2 scenario_sin2_ne scenario_cos0_ne,
    scenario_ind_pos 1 2 scenario_sin2_ne scenario_cos1_ne,
    scenario_ind_pos 2 2 scenario_sin2_ne scenario_cos2_ne,
    scenario_ind_pos 3 2 scenario_sin2_ne scenario_cos3_ne]
  have h03 := scenario_ind_le_one 0 0 3
  have h13 := scenario_ind_le_one 0 1 3
  have h23 := scenario_ind_le_one 0 2 3
  have h33 := scenario_ind_le_one 0 3 3
  omega

/-- Claim C2 (amended): the simulator performs no validation. For a
non-positive duration (with nonnegative grid dimensions) `runSimulation`
returns a normal result — an all-zero `H×W` knot map and `total_knots = 0`
— rather than failing fast. -/
theorem claim_C2_amended (P : SubQGParams) (randE randP : ℕ → ℕ → ℕ → ℝ)
    (hT : P.sim_duration ≤ 0) (hH : 0 ≤ P.field_h) (hW : 0 ≤ P.field_w) :
    runSimulation P randE randP =
      some ((List.range P.field_h.toNat).map (fun _ =>
        (List.range P.field_w.toNat).map (fun _ => 0)), 0) := by
  unfold runSimulation
  rw [if_pos ⟨hH, hW⟩]
  have hT0 : P.sim_duration.toNat = 0 := Int.toNat_of_nonpos hT
  unfold knotMapList totalKnots knotMapEntry
  rw [hT0]
  simp

/-- Claim C2 witness: the amended statement evaluated at the concrete
configuration with duration 0. -/
theorem claim_C2_witness :
    runSimulation durationZeroParams randZero randZero =
      some ((List.range durationZeroParams.field_h.toNat).map (fun _ =>
        (List.range durationZeroParams.field_w.toNat).map (fun _ => 0)), 0) :=
  claim_C2_amended durationZeroParams randZero randZero
    (by norm_num [durationZeroParams, scenarioParams])
    (by norm_num [durationZeroParams, scenarioParams])
    (by norm_num [durationZeroParams, scenarioParams])

/-- Claim C2 counterexample: with `T = 0` (and `W = H = 4`) the simulator
returns the normal result `(4×4 zero map, 0)` — it does not fail fast
with a configuration error. -/
theorem claim_C2_counterexample :
    runSimulation durationZeroParams randZero randZero =
      some (List.replicate 4 (List.replicate 4 0), 0) := by
  unfold runSimulation
  have hH : durationZeroParams.field_h = 4 := rfl
  have hW : durationZeroParams.field_w = 4 := rfl
  rw [if_pos ⟨by rw [hH]; norm_num, by rw [hW]; norm_num⟩]
  have hT0 : durationZeroParams.sim_duration.toNat = 0 := rfl
  have hHn : durationZeroParams.field_h.toNat = 4 := rfl
  have hWn : durationZeroParams.field_w.toNat = 4 := rfl
  unfold knotMapList totalKnots knotMapEntry
  rw [hT0, hHn, hWn]
  simp only [Finset.sum_range_zero]
  rfl

/-- Claim C3 counterexample: in the concrete scenario the simulation does
not return `total_knots = 16`: the four cells of column 0 have `sin 0 = 0`
(exactly, in real arithmetic and in the program's doubles alike), so their
energy is 0 and the strict `energy > 0` test fails — at most 12 of the 16
cells can register a knot. -/
theorem claim_C3_counterexample :
    totalKnots scenarioParams randZero randZero ≠ 16 := by
  have h := scenario_total_bounds.2
  omega

/-- Claim C3 (amended): in the concrete scenario every cell's energy
equals its phase exactly and both equal `|0 + spatial| / 2` (the time
phase is 0 at `t = 0`), but not all 16 cells register knots. Knots are
decided by the strict `energy > 0` test, so the four cells of column 0
(`sin 0 = 0`, exact in every semantics) never register a knot, while the
eight cells of columns 1 and 2 (`sin x = ±√3/2`) always do:
`8 ≤ total_knots ≤ 12`, never 16. The exact total turns on the value of
the sine at the endpoint `x ≈ 2π`, which is 0 in exact real arithmetic
(8 knots) but `≈ -2.45e-16 ≠ 0` in the program's IEEE doubles (12 knots);
the bounds proved here avoid that endpoint entirely. -/
theorem claim_C3_amended :
    (∀ r c : Fin 4, energyValue scenarioParams randZero 0 r c =
        phaseValue scenarioParams randZero 0 r c) ∧
    (∀ r c : Fin 4, energyValue scenarioParams randZero 0 r c =
        |0 + Real.sin (xCoord scenarioParams c) *
          Real.cos (yCoord scenarioParams r)| / 2) ∧
    (∀ r : Fin 4, knotIndicator scenarioParams randZero randZero 0 r 0 = 0) ∧
    (∀ r : Fin 4, knotIndicator scenarioParams randZero randZero 0 r 1 = 1 ∧
      knotIndicator scenarioParams randZero randZero 0 r 2 = 1) ∧
    8 ≤ totalKnots scenarioParams randZero randZero ∧
    totalKnots scenarioParams randZero randZero ≤ 12 := by
  refine ⟨?_, ?_, ?_, ?_, scenario_total_bounds.1, scenario_total_bounds.2⟩
  · intro r c
    rw [scenario_energy, scenario_phase]
  · intro r c
    rw [scenario_energy, zero_add]
  · intro r
    exact scenario_ind_zero r 0 scenario_sin0
  · intro r
    fin_cases r
    · exact ⟨scenario_ind_pos 0 1 scenario_sin1_ne scenario_cos0_ne,
        scenario_ind_pos 0 2 scenario_sin2_ne scenario_cos0_ne⟩
    · exact ⟨scenario_ind_pos 1 1 scenario_sin1_ne scenario_cos1_ne,
        scenario_ind_pos 1 2 scenario_sin2_ne scenario_cos1_ne⟩
    · exact ⟨scenario_ind_pos 2 1 scenario_sin1_ne scenario_cos2_ne,
        scenario_ind_pos 2 2 scenario_sin2_ne scenario_cos2_ne⟩
    · exact ⟨scenario_ind_pos 3 1 scenario_sin1_ne scenario_cos3_ne,
        scenario_ind_pos 3 2 scenario_sin2_ne scenario_cos3_ne⟩

lemma sum_map_range (n : ℕ) (f : ℕ → ℕ) :
    ((List.range n).map f).sum = ∑ i ∈ Finset.range n, f i := by
  induction n with
  | zero => simp
  | succ m ih =>
    rw [List.range_succ, List.map_append, List.sum_append, ih,
      Finset.sum_range_succ]
    simp

lemma length_flatMap_range {α : Type} (n : ℕ) (f : ℕ → List α) :
    ((List.range n).flatMap f).length =
      ∑ i ∈ Finset.range n, (f i).length := by
  induction n with
  | zero => simp
  | succ m ih =>
    rw [List.range_succ, List.flatMap_append, List.length_append, ih,
      Finset.sum_range_succ]
    simp

lemma length_filterMap_if (n : ℕ) (p : ℕ → Prop) (e : ℕ → ℝ) :
    ((List.range n).filterMap (fun c =>
      if p c then some (e c) else none)).length =
      ∑ c ∈ Finset.range n, (if p c then 1 else 0) := by
  induction n with
  | zero => simp
  | succ m ih =>
    rw [List.range_succ, List.filterMap_append, List.length_append, ih,
      Finset.sum_range_succ]
    by_cases h : p m
    · rw [if_pos h]
      simp [if_pos h]
    · rw [if_neg h]
      simp [if_neg h]

/-- Claim C10: after every run, the total knot count equals the sum of
all entries of the returned knot map and the length of the detected-event
log, and `analyzeRiemannProjection` on that log reports exactly this
count as `total_projected_knots`. -/
theorem claim_C10 (P : SubQGParams) (randE randP : ℕ → ℕ → ℕ → ℝ) :
    totalKnots P randE randP =
      ((knotMapList P randE randP).map List.sum).sum ∧
    totalKnots P randE randP =
      (detectedKnotBaseValues P randE randP).length ∧
    (analyzeRiemannProjection (detectedKnotBaseValues P randE randP)
        P.re_s_scaling_c).total_projected_knots =
      totalKnots P randE randP := by
  have hlen : (detectedKnotBaseValues P randE randP).length =
      ∑ t ∈ Finset.range P.sim_duration.toNat,
        ∑ r ∈ Finset.range P.field_h.toNat,
          ∑ c ∈ Finset.range P.field_w.toNat,
            knotIndicator P randE randP t r c := by
    unfold detectedKnotBaseValues
    rw [length_flatMap_range]
    apply Finset.sum_congr rfl
    intro t _
    rw [length_flatMap_range]
    apply Finset.sum_congr rfl
    intro r _
    rw [length_filterMap_if]
    apply Finset.sum_congr rfl
    intro c _
    rfl
  have htotlen : totalKnots P randE randP =
      (detectedKnotBaseValues P randE randP).length := by
    rw [hlen]
    rfl
  refine ⟨?_, htotlen, ?_⟩
  · unfold knotMapList knotMapEntry totalKnots
    rw [List.map_map]
    rw [sum_map_range]
    rw [Finset.sum_comm]
    apply Finset.sum_congr rfl
    intro r _
    rw [Finset.sum_comm]
    apply Finset.sum_congr rfl
    intro t _
    simp [sum_map_range]
  · by_cases hnil : detectedKnotBaseValues P randE randP = []
    · rw [htotlen, hnil]
      rfl
    · unfold analyzeRiemannProjection
      rw [if_neg (by simpa using hnil)]
      dsimp only
      rw [List.length_map]
      exact htotlen.symm

/-- Claim C9: for every resampler with the interval property of smooth
interpolation (target dimensions; no output byte above the source's
maximum), `resizeKnotMap` returns a target-sized matrix, an all-zero
knot map yields an all-zero result (the zero-max guards prevent any
division by zero), and every entry of the result lies in `[0, 1]`. -/
theorem claim_C9 (resample : List (List ℕ) → ℕ → ℕ → List (List ℕ))
    (targetWidth targetHeight : ℕ)
    (Hlen : ∀ m, (resample m targetWidth targetHeight).length = targetHeight)
    (Hrow : ∀ m, ∀ row ∈ resample m targetWidth targetHeight,
      row.length = targetWidth)
    (Hub : ∀ m, ∀ row ∈ resample m targetWidth targetHeight, ∀ b ∈ row,
      b ≤ matrixMax 0 m)
    (knotMap : List (List ℕ)) :
    (resizeKnotMap resample knotMap targetWidth targetHeight).length =
      targetHeight ∧
    (∀ row ∈ resizeKnotMap resample knotMap targetWidth targetHeight,
      row.length = targetWidth) ∧
    ((∀ row ∈ knotMap, ∀ v ∈ row, v = 0) →
      ∀ row ∈ resizeKnotMap resample knotMap targetWidth targetHeight,
        ∀ q ∈ row, q = 0) ∧
    (∀ row ∈ resizeKnotMap resample knotMap targetWidth targetHeight,
      ∀ q ∈ row, 0 ≤ q ∧ q ≤ 1) := by
  unfold resizeKnotMap
  by_cases hempty : knotMap.length = 0 ∨ (knotMap.headD []).length = 0
  · rw [if_pos hempty]
    refine ⟨by simp, ?_, ?_, ?_⟩
    · intro row hrow
      rw [List.eq_of_mem_replicate hrow]
      simp
    · intro _ row hrow q hq
      rw [List.eq_of_mem_replicate hrow] at hq
      exact List.eq_of_mem_replicate hq
    · intro row hrow q hq
      rw [List.eq_of_mem_replicate hrow] at hq
      rw [List.eq_of_mem_replicate hq]
      norm_num
  · rw [if_neg hempty]
    dsimp only
    set maxKnotVal := max (matrixMax 0 knotMap) 1 with hmk
    set srcBytes := knotMap.map (fun row =>
      row.map (fun v => v * 255 / maxKnotVal)) with hsrc
    set resized := resample srcBytes targetWidth targetHeight with hres
    set vals := resized.map (fun row =>
      row.map (fun (b : ℕ) => (b : ℚ) / 255)) with hvals
    set maxR := matrixMax 0 vals with hmr
    have hvals_len : vals.length = targetHeight := by
      rw [hvals, hres, List.length_map, Hlen]
    have hvals_row : ∀ row ∈ vals, row.length = targetWidth := by
      intro row hrow
      rw [hvals] at hrow
      obtain ⟨row0, hrow0, rfl⟩ := List.mem_map.mp hrow
      rw [hres] at hrow0
      rw [List.length_map]
      exact Hrow _ _ hrow0
    have hvals_nonneg : ∀ row ∈ vals, ∀ q ∈ row, 0 ≤ q := by
      intro row hrow q hq
      rw [hvals] at hrow
      obtain ⟨row0, _, rfl⟩ := List.mem_map.mp hrow
      obtain ⟨b, _, rfl⟩ := List.mem_map.mp hq
      positivity
    have hsrc_le : ∀ row ∈ srcBytes, ∀ b ∈ row, b ≤ 255 := by
      intro row hrow b hb
      rw [hsrc] at hrow
      obtain ⟨row0, hrow0, rfl⟩ := List.mem_map.mp hrow
      obtain ⟨v, hv, rfl⟩ := List.mem_map.mp hb
      have hvle : v ≤ maxKnotVal := by
        rw [hmk]
        exact le_trans (mem_le_matrixMax knotMap 0 row0 v hrow0 hv)
          (le_max_left _ _)
      apply Nat.div_le_of_le_mul
      have h1 : v * 255 ≤ maxKnotVal * 255 := Nat.mul_le_mul_right 255 hvle
      omega
    have hmaxsrc : matrixMax 0 srcBytes ≤ 255 :=
      matrixMax_le srcBytes 0 255 (Nat.zero_le 255) hsrc_le
    have hvals_le1 : ∀ row ∈ vals, ∀ q ∈ row, q ≤ 1 := by
      intro row hrow q hq
      rw [hvals] at hrow
      obtain ⟨row0, hrow0, rfl⟩ := List.mem_map.mp hrow
      obtain ⟨b, hb, rfl⟩ := List.mem_map.mp hq
      rw [hres] at hrow0
      have hble : b ≤ 255 := le_trans (Hub srcBytes row0 hrow0 b hb) hmaxsrc
      rw [div_le_one (by norm_num)]
      exact_mod_cast hble
    have hzero_imp : (∀ row ∈ knotMap, ∀ v ∈ row, v = 0) →
        maxR = 0 ∧ (∀ row ∈ vals, ∀ q ∈ row, q = 0) := by
      intro hzero
      have hsrc0 : ∀ row ∈ srcBytes, ∀ b ∈ row, b = 0 := by
        intro row hrow b hb
        rw [hsrc] at hrow
        obtain ⟨row0, hrow0, rfl⟩ := List.mem_map.mp hrow
        obtain ⟨v, hv, rfl⟩ := List.mem_map.mp hb
        rw [hzero row0 hrow0 v hv]
        simp
      have hms0 : matrixMax 0 srcBytes = 0 :=
        Nat.le_antisymm (matrixMax_le srcBytes 0 0 le_rfl
          (fun row hr b hb => le_of_eq (hsrc0 row hr b hb))) (Nat.zero_le _)
      have hvals0 : ∀ row ∈ vals, ∀ q ∈ row, q = 0 := by
        intro row hrow q hq
        rw [hvals] at hrow
        obtain ⟨row0, hrow0, rfl⟩ := List.mem_map.mp hrow
        obtain ⟨b, hb, rfl⟩ := List.mem_map.mp hq
        rw [hres] at hrow0
        have hb0 : b = 0 := by
          have h1 := Hub srcBytes row0 hrow0 b hb
          rw [hms0] at h1
          omega
        rw [hb0]
        norm_num
      refine ⟨?_, hvals0⟩
      have hle : maxR ≤ 0 := by
        rw [hmr]
        apply matrixMax_le vals 0 0 le_rfl
        intro row hr q hq
        exact le_of_eq (hvals0 row hr q hq)
      have hge : (0:ℚ) ≤ maxR := by
        rw [hmr]
        exact init_le_matrixMax vals 0
      linarith
    by_cases hpos : 0 < maxR
    · rw [if_pos hpos]
      refine ⟨by rw [List.length_map]; exact hvals_len, ?_, ?_, ?_⟩
      · intro row hrow
        obtain ⟨row0, hrow0, rfl⟩ := List.mem_map.mp hrow
        rw [List.length_map]
        exact hvals_row row0 hrow0
      · intro hzero row hrow q hq
        rw [(hzero_imp hzero).1] at hpos
        exact absurd hpos (lt_irrefl 0)
      · intro row hrow q hq
        obtain ⟨row0, hrow0, rfl⟩ := List.mem_map.mp hrow
        obtain ⟨v, hv, rfl⟩ := List.mem_map.mp hq
        constructor
        · exact div_nonneg (hvals_nonneg row0 hrow0 v hv) (le_of_lt hpos)
        · rw [div_le_one hpos, hmr]
          exact mem_le_matrixMax vals 0 row0 v hrow0 hv
    · rw [if_neg hpos]
      refine ⟨hvals_len, hvals_row, ?_, ?_⟩
      · intro hzero
        exact (hzero_imp hzero).2
      · intro row hrow q hq
        exact ⟨hvals_nonneg row hrow q hq, hvals_le1 row hrow q hq⟩

/-- Claim C9 witness: the guarantees evaluated with a concrete resampler
and a concrete all-zero 2×2 knot map resized to 3×2. -/
theorem claim_C9_witness :
    (resizeKnotMap (fun _ tw th => List.replicate th (List.replicate tw 0))
      [[0, 0], [0, 0]] 3 2).length = 2 ∧
    (∀ row ∈ resizeKnotMap (fun _ tw th =>
        List.replicate th (List.replicate tw 0)) [[0, 0], [0, 0]] 3 2,
      row.length = 3) ∧
    ((∀ row ∈ [[0, 0], [0, 0]], ∀ v ∈ row, v = 0) →
      ∀ row ∈ resizeKnotMap (fun _ tw th =>
          List.replicate th (List.replicate tw 0)) [[0, 0], [0, 0]] 3 2,
        ∀ q ∈ row, q = 0) ∧
    (∀ row ∈ resizeKnotMap (fun _ tw th =>
        List.replicate th (List.replicate tw 0)) [[0, 0], [0, 0]] 3 2,
      ∀ q ∈ row, 0 ≤ q ∧ q ≤ 1) := by
  apply claim_C9
  · intro m
    simp
  · intro m row hrow
    rw [List.eq_of_mem_replicate hrow]
    simp
  · intro m row hrow b hb
    rw [List.eq_of_mem_replicate hrow] at hb
    rw [List.eq_of_mem_replicate hb]
    exact Nat.zero_le _
